import Mathlib

/-!
Shallow embedding of the networking core of the `cpp_lib` repository:
`Socket` (src/socket.h), `TcpClient` framing (src/tcp.h), the `ThreadPool`
(src/threadpool.h) and the `TcpServer` client-id counter (src/tcp.h).

Machine-level I/O is modelled by explicit inputs: the incoming byte stream of a
connected socket is a finite list of bytes followed by a tail event (orderly
close or error), and the OS scheduling of each `recv`/`send` system call
(chunk sizes, interrupts, errors) is an explicit event list.  The POSIX branch
of each `#if` in the source is the one embedded.
-/

namespace Cpplib

/-- Byte values are naturals below 256; we keep them as `Nat`. -/
abbrev Byte := Nat

/-- What the incoming stream of a connected socket ends with:
the peer's orderly close (recv sees 0) or a socket error (recv sees -1). -/
inductive RxTail where
  | closed
  | errored
deriving DecidableEq, Repr

/-- The incoming half of a connected socket: the bytes still to be delivered,
followed by the tail event. -/
structure Stream where
  data : List Byte
  tail : RxTail
deriving DecidableEq, Repr

/-- One OS-level event answering a `::recv` call inside `Socket::recv_exact`
(src/socket.h:316-332, POSIX branch): the call is interrupted (`EINTR`, the
loop retries), or the kernel delivers a chunk of at most `k` bytes (clamped to
at least one byte and to what was requested and is available).  When the data
is exhausted the stream's tail decides the result instead. -/
inductive RecvEv where
  | intr
  | chunk (k : Nat)
deriving DecidableEq, Repr

/-- One OS-level event answering a `::send` call inside `Socket::send_all`
(src/socket.h:298-314, POSIX branch): interrupted (`EINTR`, retried), a socket
error (`send` returns -1, not `EINTR`), or the kernel accepting `k` bytes
(clamped to what remains; `k = 0` models `send` returning zero). -/
inductive SendEv where
  | intr
  | err
  | accept (k : Nat)
deriving DecidableEq, Repr

/-- The loop of `Socket::recv_exact` (src/socket.h:316-332).  `acc` is the
bytes already written into the caller's buffer (`got` in the source is
`acc.length`).  Returns `none` when the event schedule runs out before the
loop exits, otherwise `some (result, bytes written, remaining stream)`:
result `len` on success, `0` on orderly peer close, `-1` on error. -/
def recvExactGo (sched : List RecvEv) (s : Stream) (len : Nat) (acc : List Byte) :
    Option (Int × List Byte × Stream) :=
  if len ≤ acc.length then some ((acc.length : Int), acc, s)
  else
    match sched with
    | [] => none
    | RecvEv.intr :: rest => recvExactGo rest s len acc
    | RecvEv.chunk k :: rest =>
      match s.data with
      | [] =>
        match s.tail with
        | RxTail.closed => some (0, acc, s)
        | RxTail.errored => some (-1, acc, s)
      | b :: ds =>
        let m := min (max k 1) (min (len - acc.length) (b :: ds).length)
        recvExactGo rest ⟨(b :: ds).drop m, s.tail⟩ len (acc ++ (b :: ds).take m)

/-- `Socket::recv_exact` (src/socket.h:316-332): returns -1 when the socket
handle is invalid, otherwise runs the receive loop with an empty buffer. -/
def recv_exact (valid : Bool) (sched : List RecvEv) (s : Stream) (len : Nat) :
    Option (Int × List Byte × Stream) :=
  if valid then recvExactGo sched s len [] else some (-1, [], s)

/-- The loop of `Socket::send_all` (src/socket.h:298-314).  `remaining` is the
part of the buffer not yet handed to the OS, `emitted` the bytes already
accepted onto the wire (`sent` in the source is `emitted.length`).  A zero
`accept` reproduces the `if (r == 0) break;` exit: the loop stops and the
short count is returned without an error. -/
def sendAllGo (sched : List SendEv) (remaining emitted : List Byte) :
    Option (Int × List Byte) :=
  match remaining with
  | [] => some ((emitted.length : Int), emitted)
  | b :: bs =>
    match sched with
    | [] => none
    | SendEv.intr :: rest => sendAllGo rest (b :: bs) emitted
    | SendEv.err :: _ => some (-1, emitted)
    | SendEv.accept k :: rest =>
      if k = 0 then some ((emitted.length : Int), emitted)
      else
        let m := min k (b :: bs).length
        sendAllGo rest ((b :: bs).drop m) (emitted ++ (b :: bs).take m)

/-- `Socket::send_all` (src/socket.h:298-314): -1 on an invalid handle,
otherwise the sending loop.  The second component of the result is the byte
sequence actually put on the wire by this call. -/
def send_all (valid : Bool) (sched : List SendEv) (data : List Byte) :
    Option (Int × List Byte) :=
  if valid then sendAllGo sched data [] else some (-1, [])

/-- A send schedule with no socket error and no zero-byte acceptance. -/
def cleanSend (sched : List SendEv) : Prop :=
  ∀ e ∈ sched, e ≠ SendEv.err ∧ e ≠ SendEv.accept 0

instance (sched : List SendEv) : Decidable (cleanSend sched) := by
  unfold cleanSend; infer_instance

/-- `htonl` of a 32-bit value, as the big-endian byte list a `std::uint32_t`
occupies on the wire (src/tcp.h:59). -/
def be32 (n : Nat) : List Byte :=
  [n / 2 ^ 24 % 256, n / 2 ^ 16 % 256, n / 2 ^ 8 % 256, n % 256]

/-- `ntohl` applied to the four received header bytes (src/tcp.h:71). -/
def ofBe32 : List Byte → Nat
  | [a, b, c, d] => ((a * 256 + b) * 256 + c) * 256 + d
  | _ => 0

/-- `std::vector::resize(n)` on the byte vector: keep the first `n` elements,
pad with zero bytes up to length `n` (src/tcp.h:72). -/
def listResize (l : List Byte) (n : Nat) : List Byte :=
  l.take n ++ List.replicate (n - l.length) 0

/-- `recv` writing `bs` into the front of the caller's buffer `buf`:
the first `bs.length` positions are overwritten, the rest keep their
previous contents. -/
def writeBytes (buf bs : List Byte) : List Byte :=
  bs ++ buf.drop bs.length

/-- `Socket::wait_readable` (src/socket.h:345-356): `select` reports the
socket readable immediately when bytes are already queued; with nothing
queued the outcome within the timeout is the environment's choice, modelled
by the `timedOut` input. -/
def wait_readable (s : Stream) (timedOut : Bool) : Bool :=
  if s.data.isEmpty then !timedOut else true

/-- `TcpClient::sendFrame` (src/tcp.h:58-65, through the string overload that
casts the payload size to `std::uint32_t`): send the 4-byte big-endian length
with one `send_all`, then, for a nonzero length, the payload with a second
`send_all`.  The result pairs the returned `bool` with the bytes that reached
the wire; `none` when a send schedule runs out. -/
def sendFrame (valid : Bool) (schedH schedB : List SendEv) (payload : List Byte) :
    Option (Bool × List Byte) :=
  let len := payload.length % 2 ^ 32
  match send_all valid schedH (be32 len) with
  | none => none
  | some (rH, emH) =>
    if rH < 0 then some (false, emH)
    else if len = 0 then some (true, emH)
    else
      match send_all valid schedB (payload.take len) with
      | none => none
      | some (rB, emB) => some (decide (rB = (len : Int)), emH ++ emB)

/-- `TcpClient::recvFrame(std::vector<std::uint8_t>&, int)` (src/tcp.h:67-75):
wait for readability, read a 4-byte header into a local, decode it, resize the
caller's vector `out` to the announced length, and read the body directly
into `out`.  Result: `some (returned bool, out after the call, remaining
stream)`; `none` when a recv schedule runs out. -/
def recvFrameVec (valid timedOut : Bool) (schedH schedB : List RecvEv)
    (out : List Byte) (s : Stream) : Option (Bool × List Byte × Stream) :=
  if wait_readable s timedOut then
    match recv_exact valid schedH s 4 with
    | none => none
    | some (rH, wH, s1) =>
      if rH ≤ 0 then some (false, out, s1)
      else
        let need := ofBe32 wH
        let out1 := listResize out need
        if need = 0 then some (true, out1, s1)
        else
          match recv_exact valid schedB s1 need with
          | none => none
          | some (rB, wB, s2) =>
            some (decide (rB = (need : Int)), writeBytes out1 wB, s2)
  else some (false, out, s)

/-- `TcpClient::recvFrame(std::string&, int)` (src/tcp.h:77-82): run the
vector overload on a fresh buffer; only on success is the caller's string
replaced by the received bytes. -/
def recvFrameStr (valid timedOut : Bool) (schedH schedB : List RecvEv)
    (out : List Byte) (s : Stream) : Option (Bool × List Byte × Stream) :=
  match recvFrameVec valid timedOut schedH schedB [] s with
  | none => none
  | some (ok, buf, s1) =>
    if ok then some (true, buf, s1) else some (false, out, s1)

/-- `TcpClient::receive(std::size_t)` (src/tcp.h:48-56): a zero request
returns the empty string at once; otherwise a string of `len` zero bytes is
allocated, `recv_exact` fills it, a non-positive result yields the empty
string, and a positive result truncates the string to that many bytes. -/
def receiveStr (valid : Bool) (sched : List RecvEv) (s : Stream) (len : Nat) :
    Option (List Byte × Stream) :=
  if len = 0 then some ([], s)
  else
    match recv_exact valid sched s len with
    | none => none
    | some (got, w, s1) =>
      if got ≤ 0 then some ([], s1)
      else some ((writeBytes (List.replicate len 0) w).take got.toNat, s1)

/-- `ThreadPool::ThreadState` (src/threadpool.h:67-71). -/
inductive ThreadState where
  | waiting
  | running
  | stopped
deriving DecidableEq, Repr

/-- The predicate a worker waits on inside `condition.wait`
(src/threadpool.h:96-99): wake when the pool is stopping, this worker was
individually stopped, or there is a pending task. -/
def waitPredicate (stop : Bool) (st : ThreadState) (tasks : List Nat) : Bool :=
  stop || decide (st = ThreadState.stopped) || !tasks.isEmpty

/-- The decision a woken worker takes under the queue lock
(src/threadpool.h:100-107): return (exit the thread, `none`) when the pool is
stopping with an empty queue or this worker was stopped; otherwise pop the
queue's front task (`some (front, rest)`).  Tasks are identified by `Nat`
labels. -/
def workerDecision (stop : Bool) (st : ThreadState) (tasks : List Nat) :
    Option (Nat × List Nat) :=
  if (stop && tasks.isEmpty) || decide (st = ThreadState.stopped) then none
  else
    match tasks with
    | [] => none
    | t :: rest => some (t, rest)

/-- The shared state of a `ThreadPool` (src/threadpool.h:128-133): the worker
map (`std::map` iterates in ascending key order, so a list of id/state pairs
in that order), the FIFO task queue, and the `stop` flag. -/
structure TPState where
  workers : List (Nat × ThreadState)
  tasks : List Nat
  stop : Bool
deriving DecidableEq, Repr

/-- `ThreadPool::~ThreadPool` (src/threadpool.h:58-64): under the queue lock
set `stop`, then `notify_all` (the notification itself has no state). -/
def poolShutdown (p : TPState) : TPState :=
  { p with stop := true }

/-- `ThreadPool::enqueue` (src/threadpool.h:21-35): under the queue lock, a
stopped pool throws `"enqueue on stopped ThreadPool"`; otherwise the task is
appended to the unbounded queue and, after the lock, `notify_one` wakes one
worker (the `Nat` in the result counts the workers woken). -/
def enqueue (stop : Bool) (tasks : List Nat) (t : Nat) :
    Except String (List Nat × Nat) :=
  if stop then Except.error "enqueue on stopped ThreadPool"
  else Except.ok (tasks ++ [t], 1)

/-- `ThreadPool::removeThreads` (src/threadpool.h:37-52): if more removals are
requested than workers exist, throw before touching anything; otherwise the
first `n` workers (in map order) are marked `Stopped`, notified, and erased
from the map.  The result carries the new pool state, the ids of the workers
that were marked `Stopped`, and the error message if any. -/
def removeThreads (p : TPState) (n : Nat) : TPState × List Nat × Option String :=
  if p.workers.length < n then
    (p, [], some "attempted to stop more then the amount of threads")
  else
    ({ p with workers := p.workers.drop n }, (p.workers.take n).map Prod.fst, none)

/-- The four observable fields of a `Socket` relevant to `TcpClient::connect`:
whether a handle exists, whether it is connected, and whether each of
`SO_RCVTIMEO` / `SO_SNDTIMEO` has been applied. -/
structure SockState where
  valid : Bool
  connected : Bool
  rcvTimeout : Bool
  sndTimeout : Bool
deriving DecidableEq, Repr

/-- The outcome of `Socket::connect` (src/socket.h:221-244) chosen by the
environment: address-resolution failure (`inet_pton` ≠ 1), connection refusal,
timeout of the OS-level connect, or success. -/
inductive ConnectOutcome where
  | badAddress
  | refused
  | timedOutConn
  | ok
deriving DecidableEq, Repr

/-- `Socket::connect` (src/socket.h:221-244): `ensureSocket` creates the
handle, then `inet_pton` and `::connect` run; any failure returns `false`
leaving the socket unconnected. -/
def socketConnect (o : ConnectOutcome) (s : SockState) : Bool × SockState :=
  let s1 := { s with valid := true }
  match o with
  | ConnectOutcome.ok => (true, { s1 with connected := true })
  | _ => (false, s1)

/-- `Socket::set_timeouts` (src/socket.h:334-344): `false` on an invalid
handle; for a non-negative timeout the receive timeout is applied first and
the send timeout second, each returning `false` as soon as a `setsockopt`
call fails (`rcvOk` / `sndOk` are the environment's answers). -/
def set_timeouts (rcvOk sndOk : Bool) (ms : Int) (s : SockState) : Bool × SockState :=
  if !s.valid then (false, s)
  else if 0 ≤ ms then
    if !rcvOk then (false, s)
    else if !sndOk then (false, { s with rcvTimeout := true })
    else (true, { s with rcvTimeout := true, sndTimeout := true })
  else (true, s)

/-- `TcpClient::connect` (src/tcp.h:28-33): first `Socket::connect`, then —
only after it succeeded — `Socket::set_timeouts`, whose result is discarded;
the call then returns `true`.  The result exposes the returned `bool`, the
intermediate socket state between the two calls, and the final state. -/
def tcpClientConnect (o : ConnectOutcome) (rcvOk sndOk : Bool) (ms : Int)
    (s : SockState) : Bool × SockState × SockState :=
  let (c, s1) := socketConnect o s
  if c then
    let (_, s2) := set_timeouts rcvOk sndOk ms s1
    (true, s1, s2)
  else (false, s1, s1)

/-- `TcpServer::next_id_.fetch_add(1)` iterated (src/tcp.h:207 and 243): the
ids handed to `n` successive accepted connections starting from counter value
`cur`, with 64-bit wraparound of the `std::uint64_t` counter. -/
def issueIds : Nat → Nat → List Nat
  | 0, _ => []
  | n + 1, cur => cur :: issueIds n ((cur + 1) % 2 ^ 64)

/-- The ids issued by one `TcpServer` instance over `n` accepts: the counter
starts at 1 (src/tcp.h:207). -/
def issuedIds (n : Nat) : List Nat :=
  issueIds n 1

/-- Everything a terminating run of the `recv_exact` loop can produce, for any
event schedule: the stream's tail is preserved, and the result is either the
full requested count with exactly the stream's first `len - acc.length` bytes
appended to the buffer, or `0` after an orderly close (buffer holds all
remaining stream bytes, still short of the request), or `-1` after an error
(likewise). -/
theorem recvExactGo_spec (sched : List RecvEv) :
    ∀ (s : Stream) (len : Nat) (acc : List Byte), acc.length ≤ len →
    ∀ r w s', recvExactGo sched s len acc = some (r, w, s') →
      s'.tail = s.tail ∧
      ((r = (len : Int) ∧ len - acc.length ≤ s.data.length ∧
        w = acc ++ s.data.take (len - acc.length) ∧
        s'.data = s.data.drop (len - acc.length)) ∨
       (r = 0 ∧ s.tail = RxTail.closed ∧ w = acc ++ s.data ∧ s'.data = [] ∧
        w.length < len) ∨
       (r = -1 ∧ s.tail = RxTail.errored ∧ w = acc ++ s.data ∧ s'.data = [] ∧
        w.length < len)) := by
  induction sched with
  | nil =>
    intro s len acc hacc r w s' heq
    rw [recvExactGo.eq_def] at heq
    split at heq
    next hle =>
      obtain ⟨h1, h2, h3⟩ : ((acc.length : Int) = r ∧ acc = w ∧ s = s') := by
        simpa using heq
      subst h2; subst h3
      have hlen : acc.length = len := Nat.le_antisymm hacc hle
      refine ⟨rfl, Or.inl ?_⟩
      rw [← h1, hlen]
      simp
    next => simp at heq
  | cons e rest ih =>
    intro s len acc hacc r w s' heq
    rw [recvExactGo.eq_def] at heq
    split at heq
    next hle =>
      obtain ⟨h1, h2, h3⟩ : ((acc.length : Int) = r ∧ acc = w ∧ s = s') := by
        simpa using heq
      subst h2; subst h3
      have hlen : acc.length = len := Nat.le_antisymm hacc hle
      refine ⟨rfl, Or.inl ?_⟩
      rw [← h1, hlen]
      simp
    next hgt =>
      have hacclt : acc.length < len := Nat.lt_of_not_le hgt
      match e with
      | RecvEv.intr => exact ih s len acc hacc r w s' heq
      | RecvEv.chunk k =>
        obtain ⟨data, tl⟩ := s
        match data with
        | [] =>
          match tl with
          | RxTail.closed =>
            obtain ⟨h1, h2, h3⟩ : ((0 : Int) = r ∧ acc = w ∧
                (⟨[], RxTail.closed⟩ : Stream) = s') := by simpa using heq
            subst h2; subst h3
            exact ⟨rfl, Or.inr (Or.inl ⟨h1.symm, rfl, by simp, rfl, hacclt⟩)⟩
          | RxTail.errored =>
            obtain ⟨h1, h2, h3⟩ : ((-1 : Int) = r ∧ acc = w ∧
                (⟨[], RxTail.errored⟩ : Stream) = s') := by simpa using heq
            subst h2; subst h3
            exact ⟨rfl, Or.inr (Or.inr ⟨h1.symm, rfl, by simp, rfl, hacclt⟩)⟩
        | b :: ds =>
          simp only [] at heq
          set m := min (max k 1) (min (len - acc.length) (b :: ds).length) with hm
          have hm1 : m ≤ len - acc.length := le_trans (min_le_right _ _) (min_le_left _ _)
          have hm2 : m ≤ (b :: ds).length := le_trans (min_le_right _ _) (min_le_right _ _)
          have hlen_take : ((b :: ds).take m).length = m := by
            rw [List.length_take]
            exact min_eq_left hm2
          have hacc1 : (acc ++ (b :: ds).take m).length ≤ len := by
            rw [List.length_append, hlen_take]
            omega
          have := ih ⟨(b :: ds).drop m, tl⟩ len (acc ++ (b :: ds).take m) hacc1 r w s' heq
          obtain ⟨htail, hcase⟩ := this
          refine ⟨htail, ?_⟩
          have hlen1 : (acc ++ (b :: ds).take m).length = acc.length + m := by
            rw [List.length_append, hlen_take]
          rcases hcase with ⟨h1, h2, h3, h4⟩ | ⟨h1, h2, h3, h4, h5⟩ | ⟨h1, h2, h3, h4, h5⟩
          · refine Or.inl ⟨h1, ?_, ?_, ?_⟩
            · simp only [List.length_drop] at h2
              rw [hlen1] at h2
              show len - acc.length ≤ (b :: ds).length
              omega
            · rw [h3, hlen1]
              have hsplit : (b :: ds).take (len - acc.length) =
                  (b :: ds).take m ++ ((b :: ds).drop m).take (len - (acc.length + m)) := by
                have : len - acc.length = m + (len - (acc.length + m)) := by omega
                rw [this, List.take_add]
              rw [hsplit, List.append_assoc]
            · rw [h4, hlen1, List.drop_drop]
              congr 1
              omega
          · refine Or.inr (Or.inl ⟨h1, h2, ?_, h4, h5⟩)
            rw [h3, List.append_assoc, List.take_append_drop]
          · refine Or.inr (Or.inr ⟨h1, h2, ?_, h4, h5⟩)
            rw [h3, List.append_assoc, List.take_append_drop]

/-- Any terminating run of the `send_all` loop emits a prefix of the buffer,
and its return value is either `-1` or exactly the number of bytes emitted. -/
theorem sendAllGo_spec (sched : List SendEv) :
    ∀ (remaining emitted : List Byte) (r : Int) (em : List Byte),
      sendAllGo sched remaining emitted = some (r, em) →
      (∃ n, n ≤ remaining.length ∧ em = emitted ++ remaining.take n) ∧
      (r = -1 ∨ r = (em.length : Int)) := by
  induction sched with
  | nil =>
    intro remaining emitted r em heq
    match remaining with
    | [] =>
      obtain ⟨h1, h2⟩ : ((emitted.length : Int) = r ∧ emitted = em) := by
        simpa [sendAllGo] using heq
      subst h2
      exact ⟨⟨0, by simp, by simp⟩, Or.inr h1.symm⟩
    | b :: bs => simp [sendAllGo] at heq
  | cons e rest ih =>
    intro remaining emitted r em heq
    match remaining with
    | [] =>
      obtain ⟨h1, h2⟩ : ((emitted.length : Int) = r ∧ emitted = em) := by
        simpa [sendAllGo] using heq
      subst h2
      exact ⟨⟨0, by simp, by simp⟩, Or.inr h1.symm⟩
    | b :: bs =>
      match e with
      | SendEv.intr =>
        rw [sendAllGo] at heq
        exact ih (b :: bs) emitted r em heq
      | SendEv.err =>
        obtain ⟨h1, h2⟩ : ((-1 : Int) = r ∧ emitted = em) := by
          simpa [sendAllGo] using heq
        subst h2
        exact ⟨⟨0, by simp, by simp⟩, Or.inl h1.symm⟩
      | SendEv.accept k =>
        rw [sendAllGo] at heq
        by_cases hk : k = 0
        · rw [if_pos hk] at heq
          obtain ⟨h1, h2⟩ : ((emitted.length : Int) = r ∧ emitted = em) := by
            simpa using heq
          subst h2
          exact ⟨⟨0, by simp, by simp⟩, Or.inr h1.symm⟩
        · rw [if_neg hk] at heq
          set m := min k (b :: bs).length with hmdef
          have hm : m ≤ (b :: bs).length := min_le_right _ _
          obtain ⟨⟨n, hn, hem⟩, hr⟩ :=
            ih ((b :: bs).drop m) (emitted ++ (b :: bs).take m) r em heq
          refine ⟨⟨m + n, ?_, ?_⟩, hr⟩
          · simp only [List.length_drop] at hn
            omega
          · rw [hem, List.append_assoc, ← List.take_add]

/-- Under a schedule with no socket error and no zero-byte acceptance, a
terminating `send_all` loop delivers the whole buffer and returns its length. -/
theorem sendAllGo_clean (sched : List SendEv) :
    ∀ (remaining emitted : List Byte) (r : Int) (em : List Byte),
      cleanSend sched →
      sendAllGo sched remaining emitted = some (r, em) →
      r = ((emitted.length + remaining.length : Nat) : Int) ∧
      em = emitted ++ remaining := by
  induction sched with
  | nil =>
    intro remaining emitted r em _ heq
    match remaining with
    | [] =>
      obtain ⟨h1, h2⟩ : ((emitted.length : Int) = r ∧ emitted = em) := by
        simpa [sendAllGo] using heq
      subst h2
      exact ⟨by rw [← h1]; simp, by simp⟩
    | b :: bs => simp [sendAllGo] at heq
  | cons e rest ih =>
    intro remaining emitted r em hclean heq
    have hcleanrest : cleanSend rest := by
      intro x hx
      exact hclean x (List.mem_cons_of_mem _ hx)
    match remaining with
    | [] =>
      obtain ⟨h1, h2⟩ : ((emitted.length : Int) = r ∧ emitted = em) := by
        simpa [sendAllGo] using heq
      subst h2
      exact ⟨by rw [← h1]; simp, by simp⟩
    | b :: bs =>
      match e with
      | SendEv.intr =>
        rw [sendAllGo] at heq
        exact ih (b :: bs) emitted r em hcleanrest heq
      | SendEv.err =>
        exact absurd rfl (hclean SendEv.err (List.mem_cons_self _ _)).1
      | SendEv.accept k =>
        have hk : k ≠ 0 := by
          intro h0
          exact absurd rfl
            (by rw [h0] at hclean
                exact (hclean (SendEv.accept 0) (List.mem_cons_self _ _)).2)
        rw [sendAllGo, if_neg hk] at heq
        set m := min k (b :: bs).length with hmdef
        have hm : m ≤ (b :: bs).length := min_le_right _ _
        obtain ⟨h1, h2⟩ := ih ((b :: bs).drop m) (emitted ++ (b :: bs).take m) r em
          hcleanrest heq
        constructor
        · rw [h1]
          congr 1
          rw [List.length_append, List.length_take, List.length_drop]
          omega
        · rw [h2, List.append_assoc, List.take_append_drop]

/-- Decoding the big-endian wire form of a 32-bit length recovers it. -/
theorem ofBe32_be32 (n : Nat) (h : n < 2 ^ 32) : ofBe32 (be32 n) = n := by
  simp only [be32, ofBe32]
  omega

/-- The wire form of a length is four bytes long. -/
theorem be32_length (n : Nat) : (be32 n).length = 4 := rfl

/-- Case analysis for `Socket::recv_exact` started on an empty buffer: it
returns the full count with exactly the stream's first `len` bytes, or `0`
after an orderly close, or `-1` (invalid handle or stream error); short data
is never passed off as success. -/
theorem recv_exact_cases (valid : Bool) (sched : List RecvEv) (s : Stream) (len : Nat)
    (r : Int) (w : List Byte) (s' : Stream)
    (heq : recv_exact valid sched s len = some (r, w, s')) :
    (valid = true → s'.tail = s.tail) ∧
    ((r = (len : Int) ∧ valid = true ∧ len ≤ s.data.length ∧
      w = s.data.take len ∧ s'.data = s.data.drop len) ∨
     (r = 0 ∧ valid = true ∧ s.tail = RxTail.closed ∧ w = s.data ∧
      s'.data = [] ∧ w.length < len) ∨
     (r = -1 ∧ ((valid = false ∧ w = [] ∧ s' = s) ∨
       (valid = true ∧ s.tail = RxTail.errored ∧ w = s.data ∧
        s'.data = [] ∧ w.length < len)))) := by
  match valid with
  | false =>
    obtain ⟨h1, h2, h3⟩ : ((-1 : Int) = r ∧ ([] : List Byte) = w ∧ s = s') := by
      simpa [recv_exact] using heq
    subst h2; subst h3
    exact ⟨(by intro h; cases h), Or.inr (Or.inr ⟨h1.symm, Or.inl ⟨rfl, rfl, rfl⟩⟩)⟩
  | true =>
    have heq' : recvExactGo sched s len [] = some (r, w, s') := by
      simpa [recv_exact] using heq
    obtain ⟨htail, hcase⟩ :=
      recvExactGo_spec sched s len [] (by simp) r w s' heq'
    refine ⟨fun _ => htail, ?_⟩
    simp only [List.nil_append, List.length_nil, Nat.sub_zero] at hcase
    rcases hcase with ⟨h1, h2, h3, h4⟩ | ⟨h1, h2, h3, h4, h5⟩ | ⟨h1, h2, h3, h4, h5⟩
    · exact Or.inl ⟨h1, rfl, h2, h3, h4⟩
    · exact Or.inr (Or.inl ⟨h1, rfl, h2, h3, h4, h5⟩)
    · exact Or.inr (Or.inr ⟨h1, Or.inr ⟨rfl, h2, h3, h4, h5⟩⟩)

/-- `send_all` on a valid socket under an error-free, zero-free schedule
delivers the whole buffer and returns its length. -/
theorem send_all_clean (sched : List SendEv) (data : List Byte) (r : Int) (em : List Byte)
    (hclean : cleanSend sched) (heq : send_all true sched data = some (r, em)) :
    r = (data.length : Int) ∧ em = data := by
  have heq' : sendAllGo sched data [] = some (r, em) := by
    simpa [send_all] using heq
  have := sendAllGo_clean sched data [] r em hclean heq'
  simpa using this

/-- `select` reports a socket with queued bytes readable at once. -/
theorem wait_readable_of_ne_nil (s : Stream) (t : Bool) (h : s.data ≠ []) :
    wait_readable s t = true := by
  rw [wait_readable, if_neg]
  simp [List.isEmpty_iff, h]

/-- `std::vector::resize(n)` leaves the vector with exactly `n` elements. -/
theorem listResize_length (l : List Byte) (n : Nat) : (listResize l n).length = n := by
  rw [listResize, List.length_append, List.length_take, List.length_replicate]
  omega

/-- A `sendFrame` call that terminates under clean schedules returns `true`
and puts exactly the 4-byte big-endian length followed by the payload on the
wire. -/
theorem sendFrame_clean (payload : List Byte) (sH sB : List SendEv)
    (hlen : payload.length < 2 ^ 32) (hH : cleanSend sH) (hB : cleanSend sB)
    (ok : Bool) (wire : List Byte)
    (hsend : sendFrame true sH sB payload = some (ok, wire)) :
    ok = true ∧ wire = be32 payload.length ++ payload := by
  have hmod : payload.length % 2 ^ 32 = payload.length := Nat.mod_eq_of_lt hlen
  rw [sendFrame] at hsend
  simp only [hmod] at hsend
  cases hA : send_all true sH (be32 payload.length) with
  | none => rw [hA] at hsend; cases hsend
  | some p =>
    obtain ⟨rA, emA⟩ := p
    rw [hA] at hsend
    obtain ⟨hrA, hemA⟩ := send_all_clean sH (be32 payload.length) rA emA hH hA
    rw [be32_length] at hrA
    simp only [] at hsend
    rw [hrA, if_neg (by norm_num)] at hsend
    by_cases hz : payload.length = 0
    · rw [if_pos hz] at hsend
      obtain ⟨h1, h2⟩ : (true = ok ∧ emA = wire) := by simpa using hsend
      refine ⟨h1.symm, ?_⟩
      rw [← h2, hemA, List.length_eq_zero.mp hz, List.append_nil]
    · rw [if_neg hz] at hsend
      cases hB2 : send_all true sB (payload.take payload.length) with
      | none => rw [hB2] at hsend; cases hsend
      | some q =>
        obtain ⟨rB, emB⟩ := q
        rw [hB2] at hsend
        rw [List.take_length] at hB2
        obtain ⟨hrB, hemB⟩ := send_all_clean sB payload rB emB hB hB2
        obtain ⟨h1, h2⟩ : (decide (rB = (payload.length : Int)) = ok ∧
            emA ++ emB = wire) := by simpa using hsend
        constructor
        · rw [← h1, hrB]
          simp
        · rw [← h2, hemA, hemB]

/-- A `recvFrame` (vector overload) that terminates on a stream starting with
a well-formed frame succeeds, leaves exactly the payload in the caller's
vector, and consumes exactly the frame. -/
theorem recvFrame_wire (payload rest out : List Byte) (tl : RxTail) (timedOut : Bool)
    (rH rB : List RecvEv) (hlen : payload.length < 2 ^ 32)
    (res : Bool) (out' : List Byte) (s' : Stream)
    (hrecv : recvFrameVec true timedOut rH rB out
      ⟨be32 payload.length ++ (payload ++ rest), tl⟩ = some (res, out', s')) :
    res = true ∧ out' = payload ∧ s' = ⟨rest, tl⟩ := by
  obtain ⟨d', t'⟩ := s'
  rw [recvFrameVec] at hrecv
  rw [wait_readable_of_ne_nil _ timedOut (by simp [be32])] at hrecv
  rw [if_pos rfl] at hrecv
  cases hA : recv_exact true rH ⟨be32 payload.length ++ (payload ++ rest), tl⟩ 4 with
  | none => rw [hA] at hrecv; cases hrecv
  | some p =>
    obtain ⟨r4, w4, s1⟩ := p
    rw [hA] at hrecv
    obtain ⟨htail1, hcase1⟩ := recv_exact_cases true rH _ 4 r4 w4 s1 hA
    have hdlen : (be32 payload.length ++ (payload ++ rest)).length =
        4 + (payload ++ rest).length := by
      rw [List.length_append, be32_length]
    rcases hcase1 with ⟨hr4, _, _, hw4, hs1⟩ | ⟨_, _, _, hw4, _, hwlen⟩ |
      ⟨_, hbad⟩
    · simp only [] at hrecv
      rw [hr4, if_neg (by norm_num)] at hrecv
      have hw4' : w4 = be32 payload.length := by
        rw [hw4]
        exact List.take_left' (be32_length _)
      have hneed : ofBe32 w4 = payload.length := by
        rw [hw4', ofBe32_be32 _ hlen]
      rw [hneed] at hrecv
      have hs1data : s1.data = payload ++ rest := by
        rw [hs1]
        exact List.drop_left' (be32_length _)
      have hs1tail : s1.tail = tl := htail1 rfl
      by_cases hz : payload.length = 0
      · rw [if_pos hz] at hrecv
        have hpay : payload = [] := List.length_eq_zero.mp hz
        obtain ⟨h1, h2, h3⟩ : (true = res ∧ listResize out 0 = out' ∧
            s1 = (⟨d', t'⟩ : Stream)) := by
          rw [hz] at hrecv
          simpa using hrecv
        refine ⟨h1.symm, ?_, ?_⟩
        · rw [← h2, hpay, listResize, List.take_zero]
          simp
        · rw [← h3]
          obtain ⟨d1, t1⟩ := s1
          simp only at hs1data hs1tail
          rw [hs1data, hs1tail, hpay, List.nil_append]
      · rw [if_neg hz] at hrecv
        cases hB2 : recv_exact true rB s1 payload.length with
        | none => rw [hB2] at hrecv; cases hrecv
        | some q =>
          obtain ⟨rb, wb, s2⟩ := q
          rw [hB2] at hrecv
          obtain ⟨htail2, hcase2⟩ := recv_exact_cases true rB s1 payload.length rb wb s2 hB2
          rcases hcase2 with ⟨hrb, _, _, hwb, hs2⟩ | ⟨_, _, _, hwb, _, hwblen⟩ |
        ⟨_, hbad2⟩
          · have hwb' : wb = payload := by
              rw [hwb, hs1data]
              exact List.take_left' rfl
            have hs2data : s2.data = rest := by
              rw [hs2, hs1data]
              exact List.drop_left' rfl
            have hs2tail : s2.tail = tl := by rw [htail2 rfl, hs1tail]
            obtain ⟨h1, h2, h3⟩ : (decide (rb = (payload.length : Int)) = res ∧
                writeBytes (listResize out payload.length) wb = out' ∧
                s2 = (⟨d', t'⟩ : Stream)) := by simpa using hrecv
            refine ⟨?_, ?_, ?_⟩
            · rw [← h1, hrb]
              simp
            · rw [← h2, hwb', writeBytes, List.drop_eq_nil_of_le
                (by rw [listResize_length]), List.append_nil]
            · rw [← h3]
              obtain ⟨d2, t2⟩ := s2
              simp only at hs2data hs2tail
              rw [hs2data, hs2tail]
          · rw [hwb, hs1data] at hwblen
            rw [List.length_append] at hwblen
            omega
          · rcases hbad2 with ⟨hfalse, _⟩ | ⟨_, _, hwb, _, hwblen⟩
            · cases hfalse
            · rw [hwb, hs1data, List.length_append] at hwblen
              omega
    · rw [hw4] at hwlen
      rw [hdlen] at hwlen
      omega
    · rcases hbad with ⟨hfalse, _⟩ | ⟨_, _, hw4, _, hwlen⟩
      · cases hfalse
      · rw [hw4, hdlen] at hwlen
        omega

/-- C1: for every byte payload P that fits the 4-byte length prefix, a
terminating `sendFrame` of P over a connected pair (valid socket, no send
error, no zero-byte send) returns true and puts the big-endian length header
followed by P on the wire, and any terminating `recvFrame` on the receiving
side returns success with exactly P in the output buffer, consuming exactly
the frame; the empty payload gives a header-only 4-byte frame and a
successful empty result. -/
theorem frame_roundtrip (payload : List Byte) (sH sB : List SendEv)
    (hlen : payload.length < 2 ^ 32)
    (hH : cleanSend sH) (hB : cleanSend sB)
    (ok : Bool) (wire : List Byte)
    (hsend : sendFrame true sH sB payload = some (ok, wire))
    (rest out : List Byte) (tl : RxTail) (timedOut : Bool)
    (rH rB : List RecvEv) (res : Bool) (out' : List Byte) (s' : Stream)
    (hrecv : recvFrameVec true timedOut rH rB out ⟨wire ++ rest, tl⟩ =
      some (res, out', s')) :
    ok = true ∧ wire = be32 payload.length ++ payload ∧
    res = true ∧ out' = payload ∧ s' = ⟨rest, tl⟩ := by
  obtain ⟨hok, hwire⟩ := sendFrame_clean payload sH sB hlen hH hB ok wire hsend
  subst hwire
  rw [List.append_assoc] at hrecv
  obtain ⟨h1, h2, h3⟩ :=
    recvFrame_wire payload rest out tl timedOut rH rB hlen res out' s' hrecv
  exact ⟨hok, rfl, h1, h2, h3⟩

/-- Witness for C1 at the concrete payload [1, 2]. -/
theorem frame_roundtrip_witness :
    true = true ∧
    ([0, 0, 0, 2, 1, 2] : List Byte) = be32 ([1, 2] : List Byte).length ++ [1, 2] ∧
    true = true ∧ ([1, 2] : List Byte) = [1, 2] ∧
    (⟨[], RxTail.closed⟩ : Stream) = ⟨[], RxTail.closed⟩ :=
  frame_roundtrip [1, 2] [SendEv.accept 4] [SendEv.accept 2] (by norm_num)
    (by decide) (by decide) true [0, 0, 0, 2, 1, 2] (by decide) [] [9]
    RxTail.closed false [RecvEv.chunk 4] [RecvEv.chunk 2] true [1, 2]
    ⟨[], RxTail.closed⟩ (by decide)

/-- C2 counterexample: on a pool holding one queued, not-yet-dequeued task,
after the destructor-initiated shutdown the woken worker (its wait predicate
holds) does not exit: it dequeues and will execute task 42, contradicting
the claim that queued-and-not-yet-dequeued tasks are never executed after
shutdown. -/
theorem shutdown_dequeue_counterexample :
    waitPredicate (poolShutdown ⟨[(0, ThreadState.waiting)], [42], false⟩).stop
      ThreadState.waiting [42] = true ∧
    workerDecision (poolShutdown ⟨[(0, ThreadState.waiting)], [42], false⟩).stop
      ThreadState.waiting [42] = some (42, []) ∧
    workerDecision (poolShutdown ⟨[(0, ThreadState.waiting)], [42], false⟩).stop
      ThreadState.waiting [42] ≠ none := by decide

/-- C2 (amended): after pool shutdown is initiated, a worker that was not
individually stopped exits at its decision point only when the queue is
empty; while queued tasks remain it keeps dequeuing them from the front (in
FIFO order) and executing them, so queued-but-not-dequeued tasks are drained,
not abandoned. -/
theorem shutdown_drain_amended (p : TPState) (st : ThreadState) (tasks : List Nat)
    (hst : st ≠ ThreadState.stopped) :
    (poolShutdown p).stop = true ∧
    (tasks = [] → workerDecision (poolShutdown p).stop st tasks = none) ∧
    (∀ t rest, tasks = t :: rest →
      workerDecision (poolShutdown p).stop st tasks = some (t, rest)) := by
  refine ⟨rfl, ?_, ?_⟩
  · intro h
    subst h
    simp [workerDecision, poolShutdown]
  · intro t rest h
    subst h
    simp [workerDecision, poolShutdown, hst]

/-- Witness for the amended C2 on a concrete one-task pool. -/
theorem shutdown_drain_amended_witness :
    (poolShutdown ⟨[(0, ThreadState.waiting)], [5], false⟩).stop = true ∧
    workerDecision (poolShutdown ⟨[(0, ThreadState.waiting)], [5], false⟩).stop
      ThreadState.waiting [5] = some (5, []) :=
  ⟨(shutdown_drain_amended ⟨[(0, ThreadState.waiting)], [5], false⟩
      ThreadState.waiting [5] (by decide)).1,
   (shutdown_drain_amended ⟨[(0, ThreadState.waiting)], [5], false⟩
      ThreadState.waiting [5] (by decide)).2.2 5 [] rfl⟩

/-- C3 counterexample: a send call that accepts zero bytes makes `send_all`
return a count (0) smaller than the requested length (2) although no error
occurred (no error event in the schedule and the return is not -1),
contradicting "less than n only when an error occurred". -/
theorem send_all_short_counterexample :
    send_all true [SendEv.accept 0] [5, 6] = some (0, []) ∧
    SendEv.err ∉ [SendEv.accept 0] ∧
    (0 : Int) ≠ -1 ∧ (0 : Int) < (([5, 6] : List Byte).length : Int) := by decide

/-- C3 (amended): `send_all` retries interrupted sends and returns either -1
(error) or exactly the number of bytes actually emitted, which are a prefix
of the buffer (it never reports success beyond what was sent); the count
falls short of the request only when a send call errored or accepted zero
bytes — under a schedule free of both, the whole buffer is sent and its
length returned. -/
theorem send_all_amended (valid : Bool) (sched : List SendEv) (data : List Byte)
    (r : Int) (em : List Byte)
    (heq : send_all valid sched data = some (r, em)) :
    (r = -1 ∨ r = (em.length : Int)) ∧
    (∃ n, n ≤ data.length ∧ em = data.take n) ∧
    (valid = true → cleanSend sched → r = (data.length : Int) ∧ em = data) := by
  match valid with
  | false =>
    obtain ⟨h1, h2⟩ : ((-1 : Int) = r ∧ ([] : List Byte) = em) := by
      simpa [send_all] using heq
    subst h2
    exact ⟨Or.inl h1.symm, ⟨0, by simp, by simp⟩, fun h _ => by cases h⟩
  | true =>
    have heq' : sendAllGo sched data [] = some (r, em) := by
      simpa [send_all] using heq
    obtain ⟨⟨n, hn, hem⟩, hr⟩ := sendAllGo_spec sched data [] r em heq'
    refine ⟨hr, ⟨n, hn, by simpa using hem⟩, fun _ hclean => ?_⟩
    have := sendAllGo_clean sched data [] r em hclean heq'
    simpa using this

/-- Witness for the amended C3 at a concrete full send. -/
theorem send_all_amended_witness :
    (2 : Int) = (([5, 6] : List Byte).length : Int) ∧ ([5, 6] : List Byte) = [5, 6] :=
  (send_all_amended true [SendEv.accept 2] [5, 6] 2 [5, 6] (by decide)).2.2 rfl
    (by decide)

/-- C4: a terminating `recv_exact` returns exactly the requested count n
(and then the buffer holds precisely the stream's first n bytes), or 0 on an
orderly peer close before n bytes (distinct from error), or -1 on error; a
positive return is always exactly n. -/
theorem recv_exact_result (valid : Bool) (sched : List RecvEv) (s : Stream) (len : Nat)
    (r : Int) (w : List Byte) (s' : Stream)
    (heq : recv_exact valid sched s len = some (r, w, s')) :
    (0 < r → r = (len : Int) ∧ w = s.data.take len ∧ w.length = len) ∧
    (r = (len : Int) ∨ (r = 0 ∧ len ≠ 0 ∧ s.tail = RxTail.closed) ∨ r = -1) := by
  obtain ⟨_, hcase⟩ := recv_exact_cases valid sched s len r w s' heq
  rcases hcase with ⟨h1, _, h3, h4, _⟩ | ⟨h1, _, h3, _, _, h6⟩ | ⟨h1, _⟩
  · refine ⟨fun _ => ⟨h1, h4, ?_⟩, Or.inl h1⟩
    rw [h4, List.length_take]
    omega
  · refine ⟨fun hpos => absurd hpos (by rw [h1]; norm_num),
      Or.inr (Or.inl ⟨h1, by omega, h3⟩)⟩
  · exact ⟨fun hpos => absurd hpos (by rw [h1]; norm_num), Or.inr (Or.inr h1)⟩

/-- Witness for C4 at a concrete exact read of 3 bytes. -/
theorem recv_exact_result_witness :
    (3 : Int) = ((3 : Nat) : Int) ∧
    ([1, 2, 3] : List Byte) =
      (⟨[1, 2, 3], RxTail.closed⟩ : Stream).data.take 3 ∧
    ([1, 2, 3] : List Byte).length = 3 :=
  (recv_exact_result true [RecvEv.chunk 4] ⟨[1, 2, 3], RxTail.closed⟩ 3 3 [1, 2, 3]
    ⟨[], RxTail.closed⟩ (by decide)).1 (by decide)

/-- C5 counterexample: the peer announces a 2-byte frame, delivers one byte
(7) and closes; the vector-overload `recvFrame` reports failure but has
changed the caller's buffer from [9, 9] to [7, 9] — the partially read byte
7 is handed to the caller in the output buffer rather than discarded. -/
theorem recvFrame_partial_counterexample :
    recvFrameVec true false [RecvEv.chunk 4] [RecvEv.chunk 1, RecvEv.chunk 1] [9, 9]
      ⟨[0, 0, 0, 2, 7], RxTail.closed⟩ =
      some (false, [7, 9], ⟨[], RxTail.closed⟩) ∧
    ([7, 9] : List Byte) ≠ [9, 9] := by decide

/-- C5 (amended): a failed `recvFrame` reports failure at every stage; the
string overload never hands partially read bytes to the caller — its output
argument is untouched on any failure — while the vector overload may leave
partially read bytes in the resized output buffer (see the counterexample). -/
theorem recvFrameStr_failure (valid timedOut : Bool) (sH sB : List RecvEv)
    (out : List Byte) (s : Stream) (out' : List Byte) (s' : Stream)
    (heq : recvFrameStr valid timedOut sH sB out s = some (false, out', s')) :
    out' = out := by
  rw [recvFrameStr] at heq
  cases hv : recvFrameVec valid timedOut sH sB [] s with
  | none => rw [hv] at heq; cases heq
  | some p =>
    obtain ⟨ok, buf, s1⟩ := p
    rw [hv] at heq
    cases ok with
    | true => simp at heq
    | false =>
      obtain ⟨h1, _⟩ : (out = out' ∧ s1 = s') := by simpa using heq
      exact h1.symm

/-- Witness for the amended C5: the failing concrete run of the string
overload leaves the caller's string untouched. -/
theorem recvFrameStr_failure_witness : ([9, 9] : List Byte) = [9, 9] :=
  recvFrameStr_failure true false [RecvEv.chunk 4] [RecvEv.chunk 1, RecvEv.chunk 1]
    [9, 9] ⟨[0, 0, 0, 2, 7], RxTail.closed⟩ [9, 9] ⟨[], RxTail.closed⟩ (by decide)

/-- C6: submitting to a pool whose shutdown has been initiated fails with the
explicit "pool stopped" error, whatever the queue holds; on an active pool
`enqueue` never blocks for capacity — for every queue content the task is
appended at the back of the unbounded queue and exactly one worker is woken. -/
theorem enqueue_spec (p : TPState) (tasks : List Nat) (t : Nat) :
    enqueue (poolShutdown p).stop tasks t =
      Except.error "enqueue on stopped ThreadPool" ∧
    enqueue false tasks t = Except.ok (tasks ++ [t], 1) :=
  ⟨rfl, rfl⟩

/-- C7: `removeThreads(n)` with n above the worker count fails with the
explicit error, leaving the pool completely unchanged; with n within the
count it marks exactly the first n workers Stopped and removes them, leaving
the task queue and stop flag untouched, and a worker in state Stopped exits
at its next decision point without dequeuing any task. -/
theorem removeThreads_spec (p : TPState) (n : Nat) :
    (p.workers.length < n →
      removeThreads p n =
        (p, [], some "attempted to stop more then the amount of threads")) ∧
    (n ≤ p.workers.length →
      (removeThreads p n).1.workers = p.workers.drop n ∧
      (removeThreads p n).1.tasks = p.tasks ∧
      (removeThreads p n).1.stop = p.stop ∧
      (removeThreads p n).2.1 = (p.workers.take n).map Prod.fst ∧
      ((removeThreads p n).2.1).length = n ∧
      (removeThreads p n).2.2 = none) ∧
    (∀ (stp : Bool) (ts : List Nat),
      workerDecision stp ThreadState.stopped ts = none) := by
  refine ⟨?_, ?_, ?_⟩
  · intro h
    rw [removeThreads, if_pos h]
  · intro h
    rw [removeThreads, if_neg (not_lt.mpr h)]
    refine ⟨rfl, rfl, rfl, rfl, ?_, rfl⟩
    rw [List.length_map, List.length_take]
    omega
  · intro stp ts
    simp [workerDecision]

/-- Witness for C7 on a concrete two-worker pool shrunk by one. -/
theorem removeThreads_spec_witness :
    (removeThreads ⟨[(0, ThreadState.waiting), (1, ThreadState.running)], [9], false⟩
      1).2.2 = none ∧
    workerDecision true ThreadState.stopped [1, 2] = none :=
  ⟨((removeThreads_spec
      ⟨[(0, ThreadState.waiting), (1, ThreadState.running)], [9], false⟩ 1).2.1
      (by decide)).2.2.2.2.2,
   (removeThreads_spec
      ⟨[(0, ThreadState.waiting), (1, ThreadState.running)], [9], false⟩ 1).2.2
      true [1, 2]⟩

/-- C8 counterexample: on a successful connect the intermediate state between
`Socket::connect` and `set_timeouts` is connected with neither timeout in
force, and when both `setsockopt` calls fail the call still returns true with
no timeout ever applied — the timeouts are not applied atomically with the
connect. -/
theorem connect_timeouts_counterexample :
    tcpClientConnect ConnectOutcome.ok true true 3000 ⟨false, false, false, false⟩ =
      (true, ⟨true, true, false, false⟩, ⟨true, true, true, true⟩) ∧
    (⟨true, true, false, false⟩ : SockState).connected = true ∧
    (⟨true, true, false, false⟩ : SockState).rcvTimeout = false ∧
    (⟨true, true, false, false⟩ : SockState).sndTimeout = false ∧
    tcpClientConnect ConnectOutcome.ok false false 3000 ⟨false, false, false, false⟩ =
      (true, ⟨true, true, false, false⟩, ⟨true, true, false, false⟩) := by decide

/-- C8 (amended): starting from a fresh socket, `connect` returns true
exactly when the underlying resolution and OS connect succeed (it fails on
bad address, refusal or OS-level connect timeout; the `timeoutMs` argument
plays no part in the connect attempt); on success the timeouts are applied
only after the connect — the intermediate state is connected with no timeout
in force — and the final state carries them when both `setsockopt` calls
succeed. -/
theorem connect_timeouts_amended (o : ConnectOutcome) (rcvOk sndOk : Bool) (ms : Int)
    (hms : 0 ≤ ms) :
    ((tcpClientConnect o rcvOk sndOk ms ⟨false, false, false, false⟩).1 = true ↔
      o = ConnectOutcome.ok) ∧
    (o = ConnectOutcome.ok →
      (tcpClientConnect o rcvOk sndOk ms ⟨false, false, false, false⟩).2.1 =
        ⟨true, true, false, false⟩ ∧
      (rcvOk = true → sndOk = true →
        (tcpClientConnect o rcvOk sndOk ms ⟨false, false, false, false⟩).2.2 =
          ⟨true, true, true, true⟩)) ∧
    (o ≠ ConnectOutcome.ok →
      (tcpClientConnect o rcvOk sndOk ms
        ⟨false, false, false, false⟩).2.2.connected = false) := by
  cases o <;> cases rcvOk <;> cases sndOk <;>
    simp [tcpClientConnect, socketConnect, set_timeouts, hms]

/-- Witness for the amended C8 at a fully successful concrete connect. -/
theorem connect_timeouts_amended_witness :
    (tcpClientConnect ConnectOutcome.ok true true 3000
      ⟨false, false, false, false⟩).2.1 = ⟨true, true, false, false⟩ ∧
    (tcpClientConnect ConnectOutcome.ok true true 3000
      ⟨false, false, false, false⟩).2.2 = ⟨true, true, true, true⟩ :=
  ⟨((connect_timeouts_amended ConnectOutcome.ok true true 3000
      (by norm_num)).2.1 rfl).1,
   ((connect_timeouts_amended ConnectOutcome.ok true true 3000
      (by norm_num)).2.1 rfl).2 rfl rfl⟩

/-- Unfolding the id counter: while the 64-bit counter does not wrap, the
ids issued are consecutive naturals starting at `cur`. -/
theorem issueIds_eq_map (n : Nat) : ∀ (cur : Nat), cur + n ≤ 2 ^ 64 →
    issueIds n cur = (List.range n).map (fun k => cur + k) := by
  induction n with
  | zero =>
    intro cur _
    simp [issueIds]
  | succ m ih =>
    intro cur h
    rw [issueIds, List.range_succ_eq_map, List.map_cons, List.map_map]
    refine congrArg₂ List.cons (by omega) ?_
    cases m with
    | zero => simp [issueIds]
    | succ j =>
      have hcur : (cur + 1) % 2 ^ 64 = cur + 1 := Nat.mod_eq_of_lt (by omega)
      rw [hcur, ih (cur + 1) (by omega)]
      apply List.map_congr_left
      intro a _
      simp [Function.comp]
      omega

/-- C9: as long as the 64-bit counter has not been exhausted (fewer than
2^64 accepts in the server's lifetime), the ClientId values issued by one
server instance are strictly increasing and never repeat. -/
theorem issuedIds_strictMono (n : Nat) (h : n < 2 ^ 64) :
    List.Pairwise (· < ·) (issuedIds n) ∧ (issuedIds n).Nodup := by
  have heq : issuedIds n = (List.range n).map (fun k => 1 + k) :=
    issueIds_eq_map n 1 (by omega)
  rw [issuedIds] at heq
  rw [issuedIds, heq]
  constructor
  · exact List.Pairwise.map _ (fun a b hab => by omega) (List.pairwise_lt_range n)
  · exact List.Nodup.map (fun a b hab => by omega) (List.nodup_range n)

/-- Witness for C9 at five accepted connections. -/
theorem issuedIds_strictMono_witness :
    List.Pairwise (· < ·) (issuedIds 5) ∧ (issuedIds 5).Nodup :=
  issuedIds_strictMono 5 (by norm_num)

/-- C10: the string-returning `receive(n)` yields a string whose size is
either 0 (error, peer close before n bytes, or n = 0) or exactly n; it never
returns a non-empty string shorter than requested. -/
theorem receiveStr_length (valid : Bool) (sched : List RecvEv) (s : Stream) (len : Nat)
    (str : List Byte) (s' : Stream)
    (heq : receiveStr valid sched s len = some (str, s')) :
    str = [] ∨ str.length = len := by
  rw [receiveStr] at heq
  by_cases hz : len = 0
  · rw [if_pos hz] at heq
    obtain ⟨h1, _⟩ : (([] : List Byte) = str ∧ s = s') := by simpa using heq
    exact Or.inl h1.symm
  · rw [if_neg hz] at heq
    cases hrx : recv_exact valid sched s len with
    | none => rw [hrx] at heq; cases heq
    | some p =>
      obtain ⟨got, w, s1⟩ := p
      rw [hrx] at heq
      simp only [] at heq
      by_cases hg : got ≤ 0
      · rw [if_pos hg] at heq
        obtain ⟨h1, _⟩ : (([] : List Byte) = str ∧ s1 = s') := by simpa using heq
        exact Or.inl h1.symm
      · rw [if_neg hg] at heq
        obtain ⟨h1, _⟩ : ((writeBytes (List.replicate len 0) w).take got.toNat = str ∧
            s1 = s') := by simpa using heq
        obtain ⟨_, hcase⟩ := recv_exact_cases valid sched s len got w s1 hrx
        have hpos : (0 : Int) < got := lt_of_not_le hg
        rcases hcase with ⟨hr, _, hle, hw, _⟩ | ⟨hr, _⟩ | ⟨hr, _⟩
        · right
          have hwlen : w.length = len := by
            rw [hw, List.length_take]
            omega
          have htn : got.toNat = len := by
            rw [hr]
            simp
          have hW : writeBytes (List.replicate len 0) w = w := by
            rw [writeBytes, hwlen,
              List.drop_eq_nil_of_le (le_of_eq (List.length_replicate len 0)),
              List.append_nil]
          rw [← h1, hW, htn, ← hwlen, List.take_length]
        · exact absurd hpos (by rw [hr]; norm_num)
        · exact absurd hpos (by rw [hr]; norm_num)

/-- Witness for C10 at a concrete full 3-byte read. -/
theorem receiveStr_length_witness :
    ([1, 2, 3] : List Byte) = [] ∨ ([1, 2, 3] : List Byte).length = 3 :=
  receiveStr_length true [RecvEv.chunk 3] ⟨[1, 2, 3, 4], RxTail.closed⟩ 3 [1, 2, 3]
    ⟨[4], RxTail.closed⟩ (by decide)

end Cpplib
